/-
Verification of the LungScapeAI front-end logic.

The TypeScript sources are shallowly embedded: strings are `List Char`
(JavaScript string operations such as split / includes / trim / toLowerCase
are reimplemented on `List Char` with the same semantics), numbers that the
claims reason about are `ℚ`, component state is passed explicitly, and
asynchronous externals (the generative-text request, the camera permission
request, hand-landmark detection) are inputs to the embedded functions.
-/
import Mathlib

/-! ## Visibility layers (App.tsx: `VisualizationLayers`, `toggleLayer`) -/

/-- The flat mapping of visibility toggles from `types.ts` / `App.tsx`. -/
structure VisualizationLayers where
  leftLung : Bool
  rightLung : Bool
  lobes : Bool
  bronchi : Bool
  bronchioles : Bool
  alveoli : Bool
  vasculature : Bool
  pleura : Bool
  airflow : Bool
  fibrosisMap : Bool
  motion : Bool
deriving DecidableEq, Repr

/-- Keys of `VisualizationLayers` (`keyof VisualizationLayers`). -/
inductive LayerKey where
  | leftLung | rightLung | lobes | bronchi | bronchioles | alveoli
  | vasculature | pleura | airflow | fibrosisMap | motion
deriving DecidableEq, Repr

/-- Field lookup `layers[key]`. -/
def getLayer (s : VisualizationLayers) : LayerKey → Bool
  | .leftLung => s.leftLung
  | .rightLung => s.rightLung
  | .lobes => s.lobes
  | .bronchi => s.bronchi
  | .bronchioles => s.bronchioles
  | .alveoli => s.alveoli
  | .vasculature => s.vasculature
  | .pleura => s.pleura
  | .airflow => s.airflow
  | .fibrosisMap => s.fibrosisMap
  | .motion => s.motion

/-- `toggleLayer = (key) => setLayers(prev => ({ ...prev, [key]: !prev[key] }))`. -/
def toggleLayer (key : LayerKey) (prev : VisualizationLayers) : VisualizationLayers :=
  match key with
  | .leftLung => { prev with leftLung := !prev.leftLung }
  | .rightLung => { prev with rightLung := !prev.rightLung }
  | .lobes => { prev with lobes := !prev.lobes }
  | .bronchi => { prev with bronchi := !prev.bronchi }
  | .bronchioles => { prev with bronchioles := !prev.bronchioles }
  | .alveoli => { prev with alveoli := !prev.alveoli }
  | .vasculature => { prev with vasculature := !prev.vasculature }
  | .pleura => { prev with pleura := !prev.pleura }
  | .airflow => { prev with airflow := !prev.airflow }
  | .fibrosisMap => { prev with fibrosisMap := !prev.fibrosisMap }
  | .motion => { prev with motion := !prev.motion }

/-- Initial layer state from `App.tsx` (`useState<VisualizationLayers>({...})`). -/
def initialLayers : VisualizationLayers :=
  { leftLung := true, rightLung := true, lobes := false, bronchi := true
    bronchioles := false, alveoli := true, vasculature := true, pleura := true
    airflow := true, fibrosisMap := false, motion := true }

/-! ## Gemini service (`geminiService.ts`) -/

/-- Outcome of the `ai.models.generateContent` request: either the promise
resolves (with `response.text`, possibly absent/empty) or it rejects. -/
inductive ApiOutcome where
  | success (text : Option String)
  | failure
deriving DecidableEq, Repr

/-- JavaScript falsiness of `process.env.API_KEY`: missing or empty string. -/
def keyMissing : Option String → Bool
  | none => true
  | some k => k = ""

/-- `analyzeLungProgression`, reduced to its control flow: the metric
interpolation into the prompt does not affect which string is returned.
Returns the produced string together with whether a request was issued. -/
def analyzeLungProgression (apiKey : Option String) (outcome : ApiOutcome) :
    String × Bool :=
  if keyMissing apiKey then
    ("API Key not configured. Unable to generate AI insights.", false)
  else
    match outcome with
    | .success t =>
      (match t with
       | some s => if s = "" then "Analysis unavailable." else s
       | none => "Analysis unavailable.", true)
    | .failure => ("Unable to generate analysis at this time.", true)

/-- `getSimilarCasesAnalysis`, same reduction. -/
def getSimilarCasesAnalysis (apiKey : Option String) (outcome : ApiOutcome) :
    String × Bool :=
  if keyMissing apiKey then ("API Key missing.", false)
  else
    match outcome with
    | .success t =>
      (match t with
       | some s => if s = "" then "" else s
       | none => "", true)
    | .failure => ("", true)

/-! ## Hand-gesture controller UI state (`HandGestureController`: `toggleCamera`) -/

/-- UI state of the controller component that `toggleCamera` reads/writes. -/
structure CamUI where
  enabled : Bool
  loading : Bool
  status : String
  error : Option String
  landmarkerLoaded : Bool
deriving DecidableEq, Repr

/-- Outcome of `navigator.mediaDevices.getUserMedia` and the subsequent
`video.play()` chain. -/
inductive CamOutcome where
  | granted
  | denied
  | playFailed
deriving DecidableEq, Repr

/-- External action a click on the button triggers. -/
inductive CamAction where
  | noEffect
  | reloadPage
  | cameraRequest
  | stopStream
deriving DecidableEq, Repr

/-- `toggleCamera`. When a camera request is issued, `outcome` determines
which continuation (then / onloadeddata→play / catch) runs. -/
def toggleCamera (ui : CamUI) (outcome : CamOutcome) : CamUI × CamAction :=
  if ui.enabled then
    -- stopCamera()
    ({ ui with enabled := false, status := "Ready" }, .stopStream)
  else if !ui.landmarkerLoaded then
    (ui, if ui.error.isSome then .reloadPage else .noEffect)
  else
    match outcome with
    | .granted =>
      ({ ui with enabled := true, loading := false, status := "Searching..." },
        .cameraRequest)
    | .denied =>
      ({ ui with status := "Camera Denied",
                 error := some "Camera permission denied", loading := false },
        .cameraRequest)
    | .playFailed =>
      ({ ui with error := some "Video play failed", loading := false,
                 status := "Requesting Camera..." },
        .cameraRequest)

/-- The button's `disabled` prop: `loading && !error`. -/
def cameraButtonDisabled (ui : CamUI) : Bool :=
  ui.loading && !ui.error.isSome

/-! ## JavaScript string primitives on `List Char` -/

/-- `String.prototype.toLowerCase` (ASCII range, as used by the sources). -/
def lowerStr (s : List Char) : List Char := s.map Char.toLower

/-- `a.includes(pat)`: `pat` occurs as a contiguous substring of `s`. -/
def containsSub (s pat : List Char) : Bool :=
  match s with
  | [] => pat.isEmpty
  | _ :: rest => pat.isPrefixOf s || containsSub rest pat

/-- `String.prototype.trim`. -/
def trimChars (s : List Char) : List Char :=
  ((s.dropWhile Char.isWhitespace).reverse.dropWhile Char.isWhitespace).reverse

/-- First occurrence of `sep` in `s`, scanning left to right: returns the
text before the occurrence and the text after it. -/
def breakOnSep (sep : List Char) : List Char → Option (List Char × List Char)
  | [] => none
  | c :: rest =>
    if sep ≠ [] ∧ sep <+: (c :: rest) then
      some ([], (c :: rest).drop sep.length)
    else
      match breakOnSep sep rest with
      | some (pre, post) => some (c :: pre, post)
      | none => none

/-- `String.prototype.split` with a non-empty literal separator, fuelled for
structural recursion (each split consumes at least one character, so
`s.length + 1` units of fuel always suffice). -/
def jsSplitFuel (sep : List Char) : Nat → List Char → List (List Char)
  | 0, s => [s]
  | fuel + 1, s =>
    match breakOnSep sep s with
    | none => [s]
    | some (pre, post) => pre :: jsSplitFuel sep fuel post

/-- `s.split(sep)` (JavaScript semantics: leftmost occurrences, the text
between and around them, trailing empty chunk included). -/
def jsSplit (sep s : List Char) : List (List Char) :=
  jsSplitFuel sep (s.length + 1) s

/-! ## Chat widget (`AIChatHub.tsx`) -/

/-- `PRESET_QUESTIONS`. -/
def PRESET_QUESTIONS : List (List Char) :=
  [("What condition is being shown in this scan?").toList,
   ("Is the disease spreading to both lungs?").toList,
   ("How will this affect my physical activity?").toList,
   ("What is emphysematous bulla?").toList,
   ("Why is my airflow restricted?").toList,
   ("What is my stiffness index and what does it mean?").toList,
   ("How does smoking affect this condition?").toList,
   ("What medications are typical for COPD?").toList,
   ("Can these damaged areas heal?").toList,
   ("What should I monitor daily?").toList]

/-- `KNOWLEDGE_BASE`, as an association list in insertion order (the order
`Object.keys` enumerates string keys). -/
def KNOWLEDGE_BASE : List (List Char × List Char) :=
  [(("What condition is being shown in this scan?").toList,
    ("Based on the 3D reconstruction and the CT slices, your scan shows clear signs of Chronic Obstructive Pulmonary Disease (COPD) with underlying Emphysema. The 'black holes' in the upper lobes indicate tissue loss.").toList),
   (("Is the disease spreading to both lungs?").toList,
    ("Currently, the analysis detects pathology primarily in the upper lobes of both lungs, but the 'Emphysematous Bulla' (large air pocket) is most prominent in your upper left lung.").toList),
   (("How will this affect my physical activity?").toList,
    ("Because your total lung volume is decreased by 13.1% and air trapping is at 18%, you may experience shortness of breath during exertion. The lungs cannot exchange oxygen as efficiently as healthy tissue.").toList),
   (("What is emphysematous bulla?").toList,
    ("A bulla is a permanent air-filled space within the lung that develops when the walls of the tiny air sacs (alveoli) are destroyed. It doesn't contribute to breathing and can compress healthy lung tissue around it.").toList),
   (("Why is my airflow restricted?").toList,
    ("Your distal airways are showing structural distortion and narrowing. This prevents air from leaving the lungs smoothly, leading to the 'Air Trapping' shown in your metrics.").toList),
   (("What is my stiffness index and what does it mean?").toList,
    ("Your stiffness index increased from 2.1 to 6.8. This indicates 'mechanical impedance'—your lung tissue is becoming less elastic and harder to expand, making it more work to take a deep breath.").toList),
   (("How does smoking affect this condition?").toList,
    ("Smoking is the primary cause of the tissue destruction seen here. It accelerates the breakdown of alveoli walls and increases inflammation in the airways, worsening air trapping.").toList),
   (("What medications are typical for COPD?").toList,
    ("Typical treatments include bronchodilators to open airways, corticosteroids to reduce inflammation, and sometimes supplemental oxygen. *Note: Always consult your physician for prescriptions.*").toList),
   (("Can these damaged areas heal?").toList,
    ("Lungs generally don't 'regrow' destroyed alveoli. However, the goal of treatment is to protect the remaining 82% of healthy air capacity and improve your quality of life through therapy.").toList),
   (("What should I monitor daily?").toList,
    ("You should monitor your oxygen saturation (SpO2), your level of breathlessness during resting vs. activity, and any changes in cough or sputum production.").toList)]

/-- The generic fallback reply in `handleSend`. -/
def chatFallback : List Char :=
  ("I'm sorry, I don't have specific data on that yet. Try asking one of the recommended questions or consult your specialist.").toList

/-- The reply text `handleSend` computes:
`Object.keys(KNOWLEDGE_BASE).find(q => text.toLowerCase().includes(q.toLowerCase()) || q.toLowerCase().includes(text.toLowerCase()))`,
answer on a hit, `chatFallback` otherwise. -/
def kbReply (text : List Char) : List Char :=
  match KNOWLEDGE_BASE.find? (fun qa =>
      containsSub (lowerStr text) (lowerStr qa.1) ||
      containsSub (lowerStr qa.1) (lowerStr text)) with
  | some qa => qa.2
  | none => chatFallback

/-- Message sender tag. -/
inductive Sender where
  | user
  | ai
deriving DecidableEq, Repr

/-- `handleSend` effect on the message list: guard on blank input, append the
user message, then (after the simulated delay) append the AI reply. -/
def handleSend (msgs : List (Sender × List Char)) (text : List Char) :
    List (Sender × List Char) :=
  if trimChars text = [] then msgs
  else msgs ++ [(Sender.user, text), (Sender.ai, kbReply text)]

/-! ## Gesture-to-camera mapping (`HandGestureController`: `predictWebcam`)

The camera offset is tracked directly in spherical coordinates
(`THREE.Spherical`); `offset.setFromSpherical` / `position.copy` transfer it
back losslessly in exact arithmetic. `Math.PI` is a parameter `piQ`. The
two Euclidean distances (hand span and pinch distance, square roots in the
source) enter as the non-negative inputs they produce. -/

structure SphericalCoords where
  radius : ℚ
  theta : ℚ
  phi : ℚ
deriving DecidableEq, Repr

/-- The gesture reference refs (`lastPinchDistRef`, `lastCentroidRef`). -/
structure GestureRefs where
  lastPinchDist : Option ℚ
  lastCentroid : Option (ℚ × ℚ)
deriving DecidableEq, Repr

/-- The orbit-controls fields `predictWebcam` touches. -/
structure ControlsState where
  minDistance : ℚ
  maxDistance : ℚ
  enableDamping : Bool
deriving DecidableEq, Repr

/-- Per-frame hand measurements derived from the detected landmarks. -/
structure HandMeas where
  handSize : ℚ
  pinchDist : ℚ
  wristX : ℚ
  wristY : ℚ
  knuckleX : ℚ
  knuckleY : ℚ
deriving DecidableEq, Repr

/-- Everything a `predictWebcam` call reads and writes. -/
structure PredictState where
  refs : GestureRefs
  wasDampingEnabled : Bool
  isControlling : Bool
  controls : ControlsState
  cam : SphericalCoords
  status : String
deriving DecidableEq, Repr

/-- Result of `landmarkerRef.current.detectForVideo`. -/
inductive Detection where
  | throws
  | noHand
  | hand (m : HandMeas)
deriving DecidableEq, Repr

/-- `THREE.Spherical.makeSafe`: clamp `phi` into `[EPS, π − EPS]`,
`EPS = 0.000001`. -/
def makeSafePhi (piQ phi : ℚ) : ℚ :=
  max (1 / 1000000) (min (piQ - 1 / 1000000) phi)

/-- `spherical.makeSafe()`. -/
def makeSafe (piQ : ℚ) (s : SphericalCoords) : SphericalCoords :=
  { s with phi := makeSafePhi piQ s.phi }

/-- The detection-dependent part of `predictWebcam` (section B onwards):
gesture classification, the zoom / rotate branches, reference bookkeeping,
damping bookkeeping, and the `makeSafe` + position sync. -/
def predictWebcam (piQ : ℚ) (s : PredictState) (det : Detection) : PredictState :=
  match det with
  | .throws => s
  | .noHand =>
    { s with
      status := "Searching...",
      refs := ⟨none, none⟩,
      controls := if s.isControlling then
          { s.controls with enableDamping := s.wasDampingEnabled }
        else s.controls,
      isControlling := false }
  | .hand m =>
    let wasD := if !s.isControlling then s.controls.enableDamping
                else s.wasDampingEnabled
    let controls1 := if !s.isControlling then
        { s.controls with enableDamping := false }
      else s.controls
    let isPinching := m.pinchDist < m.handSize * (35 / 100)
    if isPinching then
      let normalizedPinch := m.pinchDist / m.handSize
      let radius1 :=
        match s.refs.lastPinchDist with
        | some last =>
          let delta := last - normalizedPinch
          if 1 / 200 < |delta| then
            let r := if 0 < delta then s.cam.radius * (1 + delta * 4)
                     else s.cam.radius / (1 + |delta| * 4)
            max controls1.minDistance (min controls1.maxDistance r)
          else s.cam.radius
        | none => s.cam.radius
      { refs := ⟨some normalizedPinch, none⟩,
        wasDampingEnabled := wasD,
        isControlling := true,
        controls := controls1,
        cam := makeSafe piQ { s.cam with radius := radius1 },
        status := "ZOOMING" }
    else
      let cx := (m.wristX + m.knuckleX) / 2
      let cy := (m.wristY + m.knuckleY) / 2
      let cam1 :=
        match s.refs.lastCentroid, s.refs.lastPinchDist with
        | some c, none =>
          let dx := cx - c.1
          let dy := cy - c.2
          let theta1 := if 1 / 1000 < |dx| then s.cam.theta - dx * 5
                        else s.cam.theta
          let phi1 := if 1 / 1000 < |dy| then
              max (1 / 100) (min (piQ - 1 / 100) (s.cam.phi - dy * 5))
            else s.cam.phi
          { s.cam with theta := theta1, phi := phi1 }
        | _, _ => s.cam
      { refs := ⟨none, some (cx, cy)⟩,
        wasDampingEnabled := wasD,
        isControlling := true,
        controls := controls1,
        cam := makeSafe piQ cam1,
        status := "ROTATING" }

/-! ## Finding parser (`GeminiAnalysisDisplay`: `parseFindings`) -/

/-- The display entry `parseFindings` builds per segment (icon recorded by
its component name). -/
structure Finding where
  title : List Char
  body : List Char
  icon : String
  color : String
  bg : String
  border : String
deriving DecidableEq, Repr

/-- The bullet marker the text is split on. -/
def bulletMark : List Char := ("* **").toList

/-- The closing bold marker separating title from body. -/
def boldClose : List Char := (":**").toList

/-- The keyword-driven icon/colour choice for a title. -/
def findingStyle (title : List Char) : String × String × String × String :=
  if containsSub title ("Volume").toList || containsSub title ("Restrictive").toList then
    ("TrendingDown", "text-rose-400", "bg-rose-500/10", "border-rose-500/20")
  else if containsSub title ("Stiffness").toList then
    ("Zap", "text-amber-400", "bg-amber-500/10", "border-amber-500/20")
  else if containsSub title ("Airway").toList || containsSub title ("Architectural").toList then
    ("Wind", "text-emerald-400", "bg-emerald-500/10", "border-emerald-500/20")
  else
    ("Activity", "text-cyan-400", "bg-cyan-500/10", "border-cyan-500/20")

/-- Body of the `rawItems.map` callback: split on `:**`, reject items without
both parts, trim title and body, attach the style. -/
def parseItem (item : List Char) : Option Finding :=
  match jsSplit boldClose item with
  | p0 :: p1 :: _ =>
    let title := trimChars p0
    let body := trimChars p1
    let st := findingStyle title
    some ⟨title, body, st.1, st.2.1, st.2.2.1, st.2.2.2⟩
  | _ => none

/-- `parseFindings`: split on `* **`, drop blank chunks, map the item parser,
drop the `null`s (`filter(Boolean)`). -/
def parseFindings (text : List Char) : List Finding :=
  ((jsSplit bulletMark text).filter
    (fun item => !(trimChars item).isEmpty)).filterMap parseItem

/-- A well-formed input segment `* **<title>:**<body>`. -/
def renderSegment (t b : List Char) : List Char :=
  bulletMark ++ t ++ boldClose ++ b

/-- Concatenation of segments. -/
def renderSegments (segs : List (List Char × List Char)) : List Char :=
  (segs.map fun p => renderSegment p.1 p.2).flatten

/-- Well-formedness of a segment: neither title nor body contains the
marker character `*` (so the marker occurrences are exactly the intended
ones). -/
def wellFormedSeg (p : List Char × List Char) : Prop :=
  '*' ∉ p.1 ∧ '*' ∉ p.2

/-- The entry the parser produces for a well-formed segment. -/
def expectedFinding (p : List Char × List Char) : Finding :=
  let title := trimChars p.1
  let st := findingStyle title
  ⟨title, trimChars p.2, st.1, st.2.1, st.2.2.1, st.2.2.2⟩

/-- No occurrence of `sep` begins inside `x` when `x` is followed by `t`. -/
def cleanBefore (sep x t : List Char) : Prop :=
  ∀ x2 : List Char, x2 <:+ x → x2 ≠ [] → ¬ sep <+: (x2 ++ t)

/-- Shape of the text following an item inside `parseFindings`: either the
end of the input or another `* **`-led segment. -/
def bulletTail (t : List Char) : Prop :=
  t = [] ∨ ∃ u, t = '*' :: ' ' :: u

/-! ## Numeric highlighter (`GeminiAnalysisDisplay`: `highlightNumbers`)

The regex `/(\d+\.?\d*%|\d+\.?\d* mL|from \d+\.?\d* to \d+\.?\d*|\d+\.?\d*)/g`
is embedded as a matcher per alternative (each deterministic: the greedy
sub-matches never need backtracking for these alternatives) tried in
alternation order, and the split / match / interleave of the source is the
left-to-right scan over the input those JavaScript calls amount to. -/

/-- Length of the maximal digit prefix (`\d+` / `\d*`). -/
def digitSpan : List Char → Nat
  | c :: rest => if c.isDigit then digitSpan rest + 1 else 0
  | [] => 0

/-- `\d+\.?\d*`: length of the match at the head of `s`, if any. -/
def numSpan (s : List Char) : Option Nat :=
  if digitSpan s = 0 then none
  else
    match s.drop (digitSpan s) with
    | '.' :: r2 => some (digitSpan s + 1 + digitSpan r2)
    | _ => some (digitSpan s)

/-- `\d+\.?\d*%`. -/
def altPercent (s : List Char) : Option Nat :=
  (numSpan s).bind fun n =>
    match s.drop n with
    | '%' :: _ => some (n + 1)
    | _ => none

/-- `\d+\.?\d* mL`. -/
def altMl (s : List Char) : Option Nat :=
  (numSpan s).bind fun n =>
    if (" mL").toList <+: s.drop n then some (n + 3) else none

/-- `from \d+\.?\d* to \d+\.?\d*`. -/
def altRange (s : List Char) : Option Nat :=
  if ("from ").toList <+: s then
    (numSpan (s.drop 5)).bind fun n1 =>
      if (" to ").toList <+: s.drop (5 + n1) then
        (numSpan (s.drop (5 + n1 + 4))).map fun n2 => 5 + n1 + 4 + n2
      else none
  else none

/-- The full pattern: alternatives in source order. -/
def matchToken (s : List Char) : Option Nat :=
  match altPercent s with
  | some n => some n
  | none =>
    match altMl s with
    | some n => some n
    | none =>
      match altRange s with
      | some n => some n
      | none => numSpan s

/-- A rendered fragment: plain text, or text wrapped in the highlight span. -/
inductive Frag where
  | plain (t : List Char)
  | span (t : List Char)
deriving DecidableEq, Repr

/-- The scan `split(regex)` / `match(regex)` / interleave perform: `gap`
accumulates (reversed) the characters before the next match; on a match of
length `n` the gap is emitted, the matched text is emitted (wrapped iff it
contains a digit — the `match.match(/\d/)` heuristic), and the scan resumes
after it. Fuel is structural; `s.length` units suffice since every step
consumes at least one character. -/
def scanAux : Nat → List Char → List Char → List Frag
  | _, [], gap => [.plain gap.reverse]
  | 0, s, gap => [.plain (gap.reverse ++ s)]
  | fuel + 1, c :: rest, gap =>
    match matchToken (c :: rest) with
    | some n =>
      let m := (c :: rest).take n
      .plain gap.reverse ::
        (if m.any Char.isDigit then Frag.span m else Frag.plain m) ::
          scanAux fuel ((c :: rest).drop n) []
    | none => scanAux fuel rest (c :: gap)

/-- `highlightNumbers`, as the fragment list it renders. -/
def highlightNumbers (text : List Char) : List Frag :=
  scanAux text.length text []

/-- Concatenation of the visible characters of the rendered fragments. -/
def renderFrags : List Frag → List Char
  | [] => []
  | .plain t :: rest => t ++ renderFrags rest
  | .span t :: rest => t ++ renderFrags rest

/-- No pattern match starts inside any plain fragment (each fragment is
followed by the rendering of the fragments after it). -/
def PlainsClean : List Frag → Prop
  | [] => True
  | .span _ :: rest => PlainsClean rest
  | .plain t :: rest =>
    (∀ t1 t2, t = t1 ++ t2 → t2 ≠ [] →
      matchToken (t2 ++ renderFrags rest) = none) ∧ PlainsClean rest

/-- C9: toggling a visibility layer negates exactly that key and leaves
every other key's value unchanged. -/
theorem toggleLayer_isolated (s : VisualizationLayers) (k : LayerKey) :
    getLayer (toggleLayer k s) k = !getLayer s k ∧
    ∀ k2, k2 ≠ k → getLayer (toggleLayer k s) k2 = getLayer s k2 := by
  constructor
  · cases k <;> rfl
  · intro k2 hne
    cases k <;> cases k2 <;> first | rfl | exact absurd rfl hne

theorem toggleLayer_isolated_witness :
    getLayer (toggleLayer LayerKey.leftLung initialLayers) LayerKey.leftLung
      = !getLayer initialLayers LayerKey.leftLung ∧
    getLayer (toggleLayer LayerKey.leftLung initialLayers) LayerKey.rightLung
      = getLayer initialLayers LayerKey.rightLung :=
  ⟨(toggleLayer_isolated initialLayers LayerKey.leftLung).1,
   (toggleLayer_isolated initialLayers LayerKey.leftLung).2 LayerKey.rightLung
     (by decide)⟩

/-- C8: when `detectForVideo` throws, `predictWebcam` returns immediately and
the camera, controls and gesture reference state are all unchanged. -/
theorem predictWebcam_throws (piQ : ℚ) (s : PredictState) :
    predictWebcam piQ s Detection.throws = s := rfl

/-- C6: `analyzeLungProgression` returns its fixed strings (and issues no
request) on a missing key, and its fixed failure string on request failure;
likewise `getSimilarCasesAnalysis`. -/
theorem geminiService_fallbacks (apiKey : Option String) (outcome : ApiOutcome) :
    (keyMissing apiKey = true →
      analyzeLungProgression apiKey outcome =
        ("API Key not configured. Unable to generate AI insights.", false) ∧
      getSimilarCasesAnalysis apiKey outcome = ("API Key missing.", false)) ∧
    (keyMissing apiKey = false →
      analyzeLungProgression apiKey ApiOutcome.failure =
        ("Unable to generate analysis at this time.", true) ∧
      getSimilarCasesAnalysis apiKey ApiOutcome.failure = ("", true)) := by
  constructor <;> intro h <;>
    simp [analyzeLungProgression, getSimilarCasesAnalysis, h]

theorem geminiService_fallbacks_witness :
    analyzeLungProgression none ApiOutcome.failure =
      ("API Key not configured. Unable to generate AI insights.", false) ∧
    analyzeLungProgression (some "k") ApiOutcome.failure =
      ("Unable to generate analysis at this time.", true) :=
  ⟨((geminiService_fallbacks none ApiOutcome.failure).1 (by decide)).1,
   ((geminiService_fallbacks (some "k") ApiOutcome.failure).2 (by decide)).1⟩

/-- C7 counterexample: after a camera denial (landmarker loaded, control
disabled), clicking the button again issues a fresh camera request, not a
page reload — the claimed reload affordance does not exist on this path. -/
theorem toggleCamera_retry_not_reload :
    ((toggleCamera ⟨false, false, "Ready", none, true⟩ CamOutcome.denied).1.status
        = "Camera Denied") ∧
    (toggleCamera (toggleCamera ⟨false, false, "Ready", none, true⟩
        CamOutcome.denied).1 CamOutcome.denied).2 = CamAction.cameraRequest ∧
    CamAction.cameraRequest ≠ CamAction.reloadPage := by decide

/-- C7 (amended): a denied camera request sets the status flag and error,
leaves hand control disabled with the button clickable again (retry by a new
camera request); the page-reload affordance fires exactly when the
landmarker failed to load and an error is present. -/
theorem toggleCamera_denied (ui : CamUI) (outcome : CamOutcome) :
    (ui.enabled = false → ui.landmarkerLoaded = true →
      (toggleCamera ui CamOutcome.denied).1.status = "Camera Denied" ∧
      (toggleCamera ui CamOutcome.denied).1.error
        = some "Camera permission denied" ∧
      (toggleCamera ui CamOutcome.denied).1.enabled = false ∧
      cameraButtonDisabled (toggleCamera ui CamOutcome.denied).1 = false ∧
      (toggleCamera (toggleCamera ui CamOutcome.denied).1 outcome).2
        = CamAction.cameraRequest) ∧
    (ui.enabled = false → ui.landmarkerLoaded = false →
      ui.error.isSome = true →
      (toggleCamera ui outcome).2 = CamAction.reloadPage) := by
  obtain ⟨e, l, st, er, lm⟩ := ui
  constructor
  · intro h1 h2
    subst h1; subst h2
    simp [toggleCamera, cameraButtonDisabled]
    cases outcome <;> rfl
  · intro h1 h2 h3
    subst h1; subst h2
    simp [toggleCamera, h3]

theorem toggleCamera_denied_witness :
    (toggleCamera ⟨false, false, "Ready", none, true⟩ CamOutcome.denied).1.status
      = "Camera Denied" ∧
    (toggleCamera ⟨false, true, "AI Init Failed", some "Could not load AI model.",
        false⟩ CamOutcome.denied).2 = CamAction.reloadPage :=
  ⟨((toggleCamera_denied ⟨false, false, "Ready", none, true⟩ CamOutcome.denied).1
      rfl rfl).1,
   (toggleCamera_denied ⟨false, true, "AI Init Failed",
      some "Could not load AI model.", false⟩ CamOutcome.denied).2 rfl rfl rfl⟩

/-- C4: in a pinch frame, whenever the zoom branch rescales the radius the
result is clamped into `[minDistance, maxDistance]`; when the normalized
pinch delta is at most 0.005 in magnitude the radius is left unchanged. -/
theorem predictWebcam_zoom_clamped (piQ : ℚ) (s : PredictState) (m : HandMeas)
    (last : ℚ)
    (hrange : s.controls.minDistance ≤ s.controls.maxDistance)
    (hpinch : m.pinchDist < m.handSize * (35 / 100))
    (hlast : s.refs.lastPinchDist = some last) :
    (1 / 200 < |last - m.pinchDist / m.handSize| →
      s.controls.minDistance ≤ (predictWebcam piQ s (Detection.hand m)).cam.radius ∧
      (predictWebcam piQ s (Detection.hand m)).cam.radius ≤ s.controls.maxDistance) ∧
    (|last - m.pinchDist / m.handSize| ≤ 1 / 200 →
      (predictWebcam piQ s (Detection.hand m)).cam.radius = s.cam.radius) := by
  obtain ⟨refs, wasD, isC, ctrl, cam, status⟩ := s
  simp only at hrange hlast
  have h : (predictWebcam piQ ⟨refs, wasD, isC, ctrl, cam, status⟩
      (Detection.hand m)).cam.radius =
      if 1 / 200 < |last - m.pinchDist / m.handSize| then
        max ctrl.minDistance (min ctrl.maxDistance
          (if 0 < last - m.pinchDist / m.handSize then
            cam.radius * (1 + (last - m.pinchDist / m.handSize) * 4)
           else cam.radius / (1 + |last - m.pinchDist / m.handSize| * 4)))
      else cam.radius := by
    cases isC <;> simp [predictWebcam, makeSafe, hlast, hpinch]
  constructor
  · intro hd
    rw [h, if_pos hd]
    exact ⟨le_max_left _ _, max_le hrange (min_le_left _ _)⟩
  · intro hd
    rw [h, if_neg (not_lt.mpr hd)]

theorem predictWebcam_zoom_clamped_witness :
    (2 : ℚ) ≤ (predictWebcam 3 ⟨⟨some 1, none⟩, true, true, ⟨2, 10, false⟩,
        ⟨5, 0, 1⟩, "ZOOMING"⟩ (Detection.hand ⟨1, 3/10, 0, 0, 0, 0⟩)).cam.radius ∧
    (predictWebcam 3 ⟨⟨some 1, none⟩, true, true, ⟨2, 10, false⟩,
        ⟨5, 0, 1⟩, "ZOOMING"⟩ (Detection.hand ⟨1, 3/10, 0, 0, 0, 0⟩)).cam.radius
      ≤ (10 : ℚ) :=
  (predictWebcam_zoom_clamped 3 ⟨⟨some 1, none⟩, true, true, ⟨2, 10, false⟩,
      ⟨5, 0, 1⟩, "ZOOMING"⟩ ⟨1, 3/10, 0, 0, 0, 0⟩ 1
      (by norm_num) (by norm_num) rfl).1 (by norm_num [abs])

/-- C10: on a first frame for the current gesture (zoom with no last pinch
distance; rotate with no last centroid or a stale last pinch distance) the
branch applies no zoom or rotation — the camera only passes through the
unconditional `makeSafe`, the identity whenever `phi` is already in
`[EPS, π − EPS]` — and only records the new reference values; losing the
hand resets both references to `null`. -/
theorem predictWebcam_first_frame (piQ : ℚ) (s : PredictState) (m : HandMeas) :
    (m.pinchDist < m.handSize * (35 / 100) → s.refs.lastPinchDist = none →
      (predictWebcam piQ s (Detection.hand m)).cam = makeSafe piQ s.cam ∧
      (predictWebcam piQ s (Detection.hand m)).refs =
        ⟨some (m.pinchDist / m.handSize), none⟩) ∧
    (¬ m.pinchDist < m.handSize * (35 / 100) →
      (s.refs.lastCentroid = none ∨ s.refs.lastPinchDist ≠ none) →
      (predictWebcam piQ s (Detection.hand m)).cam = makeSafe piQ s.cam ∧
      (predictWebcam piQ s (Detection.hand m)).refs =
        ⟨none, some ((m.wristX + m.knuckleX) / 2, (m.wristY + m.knuckleY) / 2)⟩) ∧
    ((predictWebcam piQ s Detection.noHand).refs = ⟨none, none⟩ ∧
      (predictWebcam piQ s Detection.noHand).cam = s.cam) ∧
    (1 / 1000000 ≤ s.cam.phi → s.cam.phi ≤ piQ - 1 / 1000000 →
      makeSafe piQ s.cam = s.cam) := by
  obtain ⟨⟨lp, lc⟩, wasD, isC, ctrl, cam, status⟩ := s
  refine ⟨?_, ?_, ?_, ?_⟩
  · intro hp hnone
    simp only at hnone
    subst hnone
    cases isC <;> simp [predictWebcam, makeSafe, hp]
  · intro hp href
    simp only at href
    rcases lc with _ | c
    · rcases lp with _ | v <;> cases isC <;>
        simp [predictWebcam, if_neg hp, makeSafe]
    · rcases lp with _ | v
      · rcases href with h | h <;> simp at h
      · cases isC <;> simp [predictWebcam, if_neg hp, makeSafe]
  · cases isC <;> simp [predictWebcam]
  · intro h1 h2
    simp only at h1 h2
    have hid : makeSafePhi piQ cam.phi = cam.phi := by
      unfold makeSafePhi
      rw [min_eq_right h2, max_eq_right h1]
    simp [makeSafe, hid]

theorem predictWebcam_first_frame_witness :
    (predictWebcam 3 ⟨⟨none, none⟩, true, false, ⟨0, 100, true⟩, ⟨5, 0, 1⟩,
        "Ready"⟩ (Detection.hand ⟨1, 1/10, 0, 0, 0, 0⟩)).cam
      = makeSafe 3 ⟨5, 0, 1⟩ ∧
    makeSafe 3 ⟨5, 0, 1⟩ = ⟨5, 0, 1⟩ :=
  ⟨((predictWebcam_first_frame 3 ⟨⟨none, none⟩, true, false, ⟨0, 100, true⟩,
      ⟨5, 0, 1⟩, "Ready"⟩ ⟨1, 1/10, 0, 0, 0, 0⟩).1 (by norm_num) rfl).1,
   (predictWebcam_first_frame 3 ⟨⟨none, none⟩, true, false, ⟨0, 100, true⟩,
      ⟨5, 0, 1⟩, "Ready"⟩ ⟨1, 1/10, 0, 0, 0, 0⟩).2.2.2 (by norm_num) (by norm_num)⟩

/-- C5 counterexample: a rotation frame (hand detected, not pinching,
references armed) whose vertical centroid displacement is below the 0.001
dead-zone leaves an out-of-range polar angle untouched: with incoming
`phi = 1/200` the frame ends with `phi = 1/200 ∉ [0.01, π − 0.01]`. -/
theorem predictWebcam_rotate_phi_escape :
    ((predictWebcam (3141592653589793 / 1000000000000000)
        ⟨⟨none, some (0, 0)⟩, true, true, ⟨0, 100, false⟩, ⟨5, 0, 1/200⟩,
          "ROTATING"⟩
        (Detection.hand ⟨1, 1, 1/5, 0, 0, 0⟩)).cam.phi = 1/200) ∧
    ¬ ((1 : ℚ)/100 ≤ 1/200 ∧
        (1/200 : ℚ) ≤ 3141592653589793 / 1000000000000000 - 1/100) := by
  constructor
  · norm_num [predictWebcam, makeSafe, makeSafePhi, abs]
  · norm_num

theorem predictWebcam_hand_phi (piQ : ℚ) (s : PredictState) (m : HandMeas) :
    ∃ y : ℚ, (predictWebcam piQ s (Detection.hand m)).cam.phi =
      makeSafePhi piQ y := by
  obtain ⟨⟨lp, lc⟩, wasD, isC, ctrl, cam, status⟩ := s
  by_cases hp : m.pinchDist < m.handSize * (35 / 100)
  · exact ⟨cam.phi, by cases isC <;> simp [predictWebcam, makeSafe, hp]⟩
  · rcases lc with _ | c <;> rcases lp with _ | v
    · exact ⟨cam.phi, by cases isC <;> simp [predictWebcam, makeSafe, hp]⟩
    · exact ⟨cam.phi, by cases isC <;> simp [predictWebcam, makeSafe, hp]⟩
    · refine ⟨if 1 / 1000 < |(m.wristY + m.knuckleY) / 2 - c.2| then
          max (1 / 100) (min (piQ - 1 / 100)
            (cam.phi - ((m.wristY + m.knuckleY) / 2 - c.2) * 5))
        else cam.phi, ?_⟩
      cases isC <;> simp [predictWebcam, makeSafe, hp]
    · exact ⟨cam.phi, by cases isC <;> simp [predictWebcam, makeSafe, hp]⟩

/-- C5 (amended): whenever the rotate branch actually applies the polar
displacement (references armed, |dy| above the dead-zone) the resulting
polar angle lies in `[0.01, π − 0.01]`; and in every detected-hand frame —
pinching or not, references armed or not — the final angle lies in
`[EPS, π − EPS]`, so the camera never reaches a pole. -/
theorem predictWebcam_rotate_phi_clamped (piQ : ℚ) (s : PredictState)
    (m : HandMeas) (hpi : 1 / 50 < piQ) :
    (∀ c : ℚ × ℚ, ¬ m.pinchDist < m.handSize * (35 / 100) →
      s.refs.lastCentroid = some c → s.refs.lastPinchDist = none →
      1 / 1000 < |(m.wristY + m.knuckleY) / 2 - c.2| →
      1 / 100 ≤ (predictWebcam piQ s (Detection.hand m)).cam.phi ∧
      (predictWebcam piQ s (Detection.hand m)).cam.phi ≤ piQ - 1 / 100) ∧
    (1 / 1000000 ≤ (predictWebcam piQ s (Detection.hand m)).cam.phi ∧
      (predictWebcam piQ s (Detection.hand m)).cam.phi ≤ piQ - 1 / 1000000) := by
  constructor
  · intro c hnp hc hl hdy
    obtain ⟨refs, wasD, isC, ctrl, cam, status⟩ := s
    simp only at hc hl
    have h : (predictWebcam piQ ⟨refs, wasD, isC, ctrl, cam, status⟩
        (Detection.hand m)).cam.phi =
        makeSafePhi piQ
          (if 1 / 1000 < |(m.wristY + m.knuckleY) / 2 - c.2| then
            max (1 / 100) (min (piQ - 1 / 100)
              (cam.phi - ((m.wristY + m.knuckleY) / 2 - c.2) * 5))
           else cam.phi) := by
      cases isC <;> simp [predictWebcam, if_neg hnp, hc, hl, makeSafe]
    rw [h, if_pos hdy]
    set x := max (1 / 100) (min (piQ - 1 / 100)
      (cam.phi - ((m.wristY + m.knuckleY) / 2 - c.2) * 5)) with hx
    have hx1 : 1 / 100 ≤ x := le_max_left _ _
    have hx2 : x ≤ piQ - 1 / 100 :=
      max_le (by linarith) (min_le_left _ _)
    have hsafe : makeSafePhi piQ x = x := by
      unfold makeSafePhi
      rw [min_eq_right (by linarith), max_eq_right (by linarith)]
    rw [hsafe]
    exact ⟨hx1, hx2⟩
  · obtain ⟨y, hy⟩ := predictWebcam_hand_phi piQ s m
    rw [hy]
    unfold makeSafePhi
    exact ⟨le_max_left _ _, max_le (by linarith) (min_le_left _ _)⟩

theorem predictWebcam_rotate_phi_clamped_witness :
    (1 : ℚ) / 100 ≤ (predictWebcam (3141592653589793 / 1000000000000000)
        ⟨⟨none, some (0, 0)⟩, true, true, ⟨0, 100, false⟩, ⟨5, 0, 2⟩,
          "ROTATING"⟩ (Detection.hand ⟨1, 1, 0, 1, 0, 0⟩)).cam.phi ∧
    (predictWebcam (3141592653589793 / 1000000000000000)
        ⟨⟨none, some (0, 0)⟩, true, true, ⟨0, 100, false⟩, ⟨5, 0, 2⟩,
          "ROTATING"⟩ (Detection.hand ⟨1, 1, 0, 1, 0, 0⟩)).cam.phi
      ≤ 3141592653589793 / 1000000000000000 - 1 / 100 :=
  (predictWebcam_rotate_phi_clamped (3141592653589793 / 1000000000000000)
      ⟨⟨none, some (0, 0)⟩, true, true, ⟨0, 100, false⟩, ⟨5, 0, 2⟩, "ROTATING"⟩
      ⟨1, 1, 0, 1, 0, 0⟩ (by norm_num)).1 (0, 0)
      (by norm_num) rfl rfl (by norm_num [abs])

set_option maxRecDepth 100000 in
/-- C3: the preset questions are exactly the knowledge-base keys, the ten
answers are pairwise distinct, and submitting any knowledge-base question
verbatim appends the user message and an AI reply carrying exactly that
question's fixed answer (which is never the generic fallback). -/
theorem handleSend_presets :
    PRESET_QUESTIONS = KNOWLEDGE_BASE.map Prod.fst ∧
    KNOWLEDGE_BASE.Pairwise (fun a b => a.2 ≠ b.2) ∧
    ∀ qa ∈ KNOWLEDGE_BASE, qa.2 ≠ chatFallback ∧
      ∀ msgs, handleSend msgs qa.1 =
        msgs ++ [(Sender.user, qa.1), (Sender.ai, qa.2)] := by
  refine ⟨by decide, by decide, ?_⟩
  have hall : ∀ qa ∈ KNOWLEDGE_BASE,
      ¬ trimChars qa.1 = [] ∧ kbReply qa.1 = qa.2 ∧ qa.2 ≠ chatFallback := by
    decide
  intro qa hqa
  obtain ⟨h1, h2, h3⟩ := hall qa hqa
  refine ⟨h3, fun msgs => ?_⟩
  unfold handleSend
  rw [if_neg h1, h2]

set_option maxRecDepth 100000 in
theorem handleSend_presets_witness :
    handleSend [] (("What is emphysematous bulla?").toList) =
      [(Sender.user, ("What is emphysematous bulla?").toList),
       (Sender.ai, ("A bulla is a permanent air-filled space within the lung that develops when the walls of the tiny air sacs (alveoli) are destroyed. It doesn't contribute to breathing and can compress healthy lung tissue around it.").toList)] :=
  (handleSend_presets.2.2
    ((("What is emphysematous bulla?").toList,
      ("A bulla is a permanent air-filled space within the lung that develops when the walls of the tiny air sacs (alveoli) are destroyed. It doesn't contribute to breathing and can compress healthy lung tissue around it.").toList))
    (by decide)).2 []

theorem digitSpan_le (s : List Char) : digitSpan s ≤ s.length := by
  induction s with
  | nil => simp [digitSpan]
  | cons c r ih =>
    by_cases h : c.isDigit
    · simp [digitSpan, h]
      omega
    · simp [digitSpan, h]

theorem digitSpan_head {s : List Char} (h : 1 ≤ digitSpan s) :
    ∃ c r, s = c :: r ∧ c.isDigit = true := by
  cases s with
  | nil => simp [digitSpan] at h
  | cons c r =>
    by_cases hc : c.isDigit
    · exact ⟨c, r, rfl, hc⟩
    · simp [digitSpan, hc] at h

theorem numSpan_pos {s : List Char} {n : Nat} (h : numSpan s = some n) : 1 ≤ n := by
  unfold numSpan at h
  split at h
  · exact absurd h (by simp)
  · split at h <;> (injection h with h2; omega)

theorem numSpan_digits {s : List Char} {n : Nat} (h : numSpan s = some n) :
    1 ≤ digitSpan s := by
  unfold numSpan at h
  split at h
  · exact absurd h (by simp)
  · omega

theorem numSpan_le {s : List Char} {n : Nat} (h : numSpan s = some n) :
    n ≤ s.length := by
  have hds := digitSpan_le s
  unfold numSpan at h
  split at h
  · exact absurd h (by simp)
  · split at h
    case _ r2 heq =>
      have h3 : s.length - digitSpan s = r2.length + 1 := by
        rw [← List.length_drop, heq]
        simp
      have h4 := digitSpan_le r2
      injection h with h2
      omega
    case _ =>
      injection h with h2
      omega

theorem altPercent_le {s : List Char} {n : Nat} (h : altPercent s = some n) :
    n ≤ s.length ∧ 1 ≤ n := by
  unfold altPercent at h
  rcases hns : numSpan s with _ | n0 <;> rw [hns] at h
  · simp at h
  · simp only [Option.some_bind] at h
    split at h
    case _ r heq =>
      have h1 : s.length - n0 = r.length + 1 := by
        rw [← List.length_drop, heq]
        simp
      have h2 := numSpan_le hns
      injection h with h3
      omega
    case _ => exact absurd h (by simp)

theorem altMl_le {s : List Char} {n : Nat} (h : altMl s = some n) :
    n ≤ s.length ∧ 1 ≤ n := by
  unfold altMl at h
  rcases hns : numSpan s with _ | n0 <;> rw [hns] at h
  · simp at h
  · simp only [Option.some_bind] at h
    split at h
    · have h1 := (by assumption : (" mL").toList <+: s.drop n0).length_le
      rw [List.length_drop] at h1
      have h2 := numSpan_le hns
      injection h with h3
      simp at h1
      omega
    · exact absurd h (by simp)

theorem altRange_le {s : List Char} {n : Nat} (h : altRange s = some n) :
    n ≤ s.length ∧ 1 ≤ n := by
  unfold altRange at h
  split at h
  · have h0 : ("from ").toList.length ≤ s.length :=
      (by assumption : ("from ").toList <+: s).length_le
    have e0 : ("from ").toList.length = 5 := rfl
    rcases hn1 : numSpan (s.drop 5) with _ | n1 <;> rw [hn1] at h
    · simp at h
    · simp only [Option.some_bind] at h
      split at h
      · have h1 : (" to ").toList.length ≤ (s.drop (5 + n1)).length :=
          (by assumption : (" to ").toList <+: s.drop (5 + n1)).length_le
        have e1 : (" to ").toList.length = 4 := rfl
        have e2 : (s.drop (5 + n1)).length = s.length - (5 + n1) :=
          List.length_drop _ _
        have h2 := numSpan_le hn1
        have e3 : (s.drop 5).length = s.length - 5 := List.length_drop _ _
        rw [e3] at h2
        rcases hn2 : numSpan (s.drop (5 + n1 + 4)) with _ | n2 <;> rw [hn2] at h
        · simp at h
        · have h3 := numSpan_le hn2
          have e4 : (s.drop (5 + n1 + 4)).length = s.length - (5 + n1 + 4) :=
            List.length_drop _ _
          rw [e4] at h3
          simp only [Option.map_some'] at h
          injection h with h4
          omega
      · exact absurd h (by simp)
  · exact absurd h (by simp)

theorem matchToken_le {s : List Char} {n : Nat} (h : matchToken s = some n) :
    n ≤ s.length ∧ 1 ≤ n := by
  unfold matchToken at h
  split at h
  · injection h with h1; subst h1
    exact altPercent_le (by assumption)
  · split at h
    · injection h with h1; subst h1
      exact altMl_le (by assumption)
    · split at h
      · injection h with h1; subst h1
        exact altRange_le (by assumption)
      · exact ⟨numSpan_le h, numSpan_pos h⟩

theorem take_any_digit {c : Char} {r : List Char} {n : Nat}
    (hc : c.isDigit = true) (hn : 1 ≤ n) :
    (((c :: r).take n).any Char.isDigit) = true := by
  cases n with
  | zero => omega
  | succ k => simp [List.take, hc]

theorem numSpan_take_digit {s : List Char} {n : Nat} (h : numSpan s = some n) :
    ((s.take n).any Char.isDigit) = true := by
  obtain ⟨c, r, rfl, hc⟩ := digitSpan_head (numSpan_digits h)
  exact take_any_digit hc (numSpan_pos h)

theorem matchToken_take_digit {s : List Char} {n : Nat}
    (h : matchToken s = some n) : ((s.take n).any Char.isDigit) = true := by
  unfold matchToken at h
  split at h
  next k heq =>
    injection h with h1
    subst h1
    unfold altPercent at heq
    rcases hns : numSpan s with _ | n0 <;> rw [hns] at heq
    · simp at heq
    · simp only [Option.some_bind] at heq
      split at heq
      next tl heq2 =>
        injection heq with h2
        obtain ⟨c, r, rfl, hc⟩ := digitSpan_head (numSpan_digits hns)
        exact take_any_digit hc (by omega)
      next => exact absurd heq (by simp)
  next =>
    split at h
    next k heq =>
      injection h with h1
      subst h1
      unfold altMl at heq
      rcases hns : numSpan s with _ | n0 <;> rw [hns] at heq
      · simp at heq
      · simp only [Option.some_bind] at heq
        split at heq
        · injection heq with h2
          obtain ⟨c, r, rfl, hc⟩ := digitSpan_head (numSpan_digits hns)
          exact take_any_digit hc (by omega)
        · exact absurd heq (by simp)
    next =>
      split at h
      next k heq =>
        injection h with h1
        subst h1
        unfold altRange at heq
        split at heq
        · obtain ⟨t, rfl⟩ := (by assumption : ("from ").toList <+: s)
          have hdrop : (("from ").toList ++ t).drop 5 = t := by
            have h5 : (("from ").toList).length = 5 := rfl
            rw [← h5, List.drop_left]
          rw [hdrop] at heq
          rcases hn1 : numSpan t with _ | n1 <;> rw [hn1] at heq
          · simp at heq
          · simp only [Option.some_bind] at heq
            split at heq
            · rcases hn2 : numSpan ((("from ").toList ++ t).drop (5 + n1 + 4))
                  with _ | n2 <;> rw [hn2] at heq
              · simp at heq
              · simp only [Option.map_some'] at heq
                injection heq with h2
                obtain ⟨c, r, rfl, hc⟩ := digitSpan_head (numSpan_digits hn1)
                rw [List.take_append_eq_append_take, List.any_append]
                have h5 : (("from ").toList).length = 5 := rfl
                have htk : ((c :: r).take (k - (("from ").toList).length)).any
                    Char.isDigit = true := take_any_digit hc (by omega)
                rw [htk]
                simp
            · exact absurd heq (by simp)
        · exact absurd heq (by simp)
      next => exact numSpan_take_digit h

theorem renderFrags_cons_mark (b : Bool) (t : List Char) (l : List Frag) :
    renderFrags ((if b then Frag.span t else Frag.plain t) :: l) =
      t ++ renderFrags l := by
  cases b <;> rfl

theorem scanAux_render (fuel : Nat) : ∀ s gap,
    renderFrags (scanAux fuel s gap) = gap.reverse ++ s := by
  induction fuel with
  | zero =>
    intro s gap
    cases s <;> simp [scanAux, renderFrags]
  | succ f ih =>
    intro s gap
    cases s with
    | nil => simp [scanAux, renderFrags]
    | cons c rest =>
      rcases h : matchToken (c :: rest) with _ | n
      · rw [show scanAux (f + 1) (c :: rest) gap = scanAux f rest (c :: gap) by
          simp only [scanAux, h]]
        rw [ih]
        simp
      · rw [show scanAux (f + 1) (c :: rest) gap =
            Frag.plain gap.reverse ::
              (if ((c :: rest).take n).any Char.isDigit then
                Frag.span ((c :: rest).take n)
               else Frag.plain ((c :: rest).take n)) ::
              scanAux f ((c :: rest).drop n) [] by
          simp only [scanAux, h]]
        rw [renderFrags, renderFrags_cons_mark, ih]
        simp [List.take_append_drop]

theorem scanAux_spans (fuel : Nat) : ∀ s gap t,
    Frag.span t ∈ scanAux fuel s gap →
    ∃ post, (t ++ post) <:+ s ∧ matchToken (t ++ post) = some t.length ∧
      1 ≤ t.length := by
  induction fuel with
  | zero =>
    intro s gap t ht
    cases s <;> simp [scanAux] at ht
  | succ f ih =>
    intro s gap t ht
    cases s with
    | nil => simp [scanAux] at ht
    | cons c rest =>
      rcases h : matchToken (c :: rest) with _ | n
      · rw [show scanAux (f + 1) (c :: rest) gap = scanAux f rest (c :: gap) by
          simp only [scanAux, h]] at ht
        obtain ⟨post, hsuf, hmt, hlen⟩ := ih rest (c :: gap) t ht
        exact ⟨post, hsuf.trans (List.suffix_cons c rest), hmt, hlen⟩
      · rw [show scanAux (f + 1) (c :: rest) gap =
            Frag.plain gap.reverse ::
              (if ((c :: rest).take n).any Char.isDigit then
                Frag.span ((c :: rest).take n)
               else Frag.plain ((c :: rest).take n)) ::
              scanAux f ((c :: rest).drop n) [] by
          simp only [scanAux, h]] at ht
        rw [if_pos (matchToken_take_digit h)] at ht
        simp only [List.mem_cons] at ht
        rcases ht with ht | ht | ht
        · exact absurd ht (by simp)
        · have htake : t = (c :: rest).take n := by
            injection ht with h2
          subst htake
          refine ⟨(c :: rest).drop n, ?_, ?_, ?_⟩
          · rw [List.take_append_drop]
          · rw [List.take_append_drop, h]
            have hle := (matchToken_le h).1
            rw [List.length_take]
            congr 1
            omega
          · have hle := (matchToken_le h).2
            rw [List.length_take]
            have := (matchToken_le h).1
            omega
        · obtain ⟨post, hsuf, hmt, hlen⟩ := ih ((c :: rest).drop n) [] t ht
          exact ⟨post, hsuf.trans (List.drop_suffix n (c :: rest)), hmt, hlen⟩

theorem scanAux_noMatch (fuel : Nat) : ∀ s gap,
    (∀ i < s.length, matchToken (s.drop i) = none) →
    scanAux fuel s gap = [Frag.plain (gap.reverse ++ s)] := by
  induction fuel with
  | zero =>
    intro s gap hnone
    cases s <;> simp [scanAux]
  | succ f ih =>
    intro s gap hnone
    cases s with
    | nil => simp [scanAux]
    | cons c rest =>
      have h0 : matchToken (c :: rest) = none := by
        have := hnone 0 (by simp)
        simpa using this
      rw [show scanAux (f + 1) (c :: rest) gap = scanAux f rest (c :: gap) by
        simp only [scanAux, h0]]
      rw [ih rest (c :: gap) (fun i hi => by
        have := hnone (i + 1) (by simpa using Nat.succ_lt_succ hi)
        simpa using this)]
      simp

theorem append_singleton_split {gap g1 g2 : List Char} {c : Char}
    (h : gap ++ [c] = g1 ++ g2) (hne : g2 ≠ []) :
    (g1 = gap ∧ g2 = [c]) ∨
    (∃ g3, g2 = g3 ++ [c] ∧ g3 ≠ [] ∧ gap = g1 ++ g3) := by
  rcases List.append_eq_append_iff.mp h with ⟨a2, ha1, ha2⟩ | ⟨c2, hc1, hc2⟩
  · rcases a2 with _ | ⟨x, a3⟩
    · left
      constructor
      · rw [ha1]; simp
      · symm at ha2; simpa using ha2
    · rcases g2 with _ | ⟨y, g3⟩
      · exact absurd rfl hne
      · injection ha2 with h1 h2
        have := List.append_eq_nil.mp h2.symm
        exact absurd this.2 (by simp)
  · rcases c2 with _ | ⟨x, c3⟩
    · left
      constructor
      · rw [hc1]; simp
      · simpa using hc2
    · right
      exact ⟨x :: c3, hc2, by simp, hc1⟩

theorem scanAux_plain (fuel : Nat) : ∀ s gap, s.length ≤ fuel →
    (∀ g1 g2, gap.reverse = g1 ++ g2 → g2 ≠ [] →
      matchToken (g2 ++ s) = none) →
    PlainsClean (scanAux fuel s gap) := by
  induction fuel with
  | zero =>
    intro s gap hs hgap
    have hnil : s = [] := List.length_eq_zero.mp (Nat.le_zero.mp hs)
    subst hnil
    simp only [scanAux, PlainsClean]
    refine ⟨?_, trivial⟩
    intro t1 t2 ht hne
    have := hgap t1 t2 ht hne
    simpa [renderFrags] using this
  | succ f ih =>
    intro s gap hs hgap
    cases s with
    | nil =>
      simp only [scanAux, PlainsClean]
      refine ⟨?_, trivial⟩
      intro t1 t2 ht hne
      have := hgap t1 t2 ht hne
      simpa [renderFrags] using this
    | cons c rest =>
      rcases h : matchToken (c :: rest) with _ | n
      · rw [show scanAux (f + 1) (c :: rest) gap = scanAux f rest (c :: gap) by
          simp only [scanAux, h]]
        apply ih rest (c :: gap) (by simpa using hs)
        intro g1 g2 hsplit hne
        rw [List.reverse_cons] at hsplit
        rcases append_singleton_split hsplit hne with ⟨hg1, hg2⟩ | ⟨g3, hg2, hne3, hgap3⟩
        · subst hg2
          simpa using h
        · subst hg2
          have := hgap g1 g3 hgap3 hne3
          simpa using this
      · rw [show scanAux (f + 1) (c :: rest) gap =
            Frag.plain gap.reverse ::
              (if ((c :: rest).take n).any Char.isDigit then
                Frag.span ((c :: rest).take n)
               else Frag.plain ((c :: rest).take n)) ::
              scanAux f ((c :: rest).drop n) [] by
          simp only [scanAux, h]]
        rw [if_pos (matchToken_take_digit h)]
        have hrender : renderFrags (Frag.span ((c :: rest).take n) ::
            scanAux f ((c :: rest).drop n) []) = c :: rest := by
          rw [renderFrags, scanAux_render]
          simp [List.take_append_drop]
        refine ⟨?_, ?_⟩
        · intro t1 t2 ht hne
          rw [hrender]
          exact hgap t1 t2 ht hne
        · show PlainsClean (Frag.span _ :: _)
          rw [PlainsClean]
          apply ih ((c :: rest).drop n) []
          · have hpos := (matchToken_le h).2
            rw [List.length_drop]
            simp only [List.length_cons] at hs ⊢
            omega
          · intro g1 g2 hsplit hne
            simp at hsplit
            exact absurd hsplit.2 hne

/-- C2: the fragments `highlightNumbers` renders concatenate back to the
input exactly; every highlighted fragment is a match of the number pattern
at its position (and every matched fragment is highlighted — the digit
check always passes); no pattern match starts inside any plain fragment;
and an input with no matching substring is returned unchanged as a single
plain fragment. -/
theorem highlightNumbers_spec (text : List Char) :
    renderFrags (highlightNumbers text) = text ∧
    (∀ t, Frag.span t ∈ highlightNumbers text →
      ∃ post, (t ++ post) <:+ text ∧ matchToken (t ++ post) = some t.length ∧
        1 ≤ t.length) ∧
    PlainsClean (highlightNumbers text) ∧
    ((∀ i < text.length, matchToken (text.drop i) = none) →
      highlightNumbers text = [Frag.plain text]) := by
  refine ⟨?_, ?_, ?_, ?_⟩
  · unfold highlightNumbers
    rw [scanAux_render]
    simp
  · intro t ht
    exact scanAux_spans text.length text [] t ht
  · refine scanAux_plain text.length text [] le_rfl ?_
    intro g1 g2 h hne
    simp at h
    exact absurd h.2 hne
  · intro hnone
    unfold highlightNumbers
    rw [scanAux_noMatch text.length text [] hnone]
    simp

theorem highlightNumbers_spec_witness :
    renderFrags (highlightNumbers ("no numerals here").toList) =
      ("no numerals here").toList ∧
    highlightNumbers ("no numerals here").toList =
      [Frag.plain ("no numerals here").toList] :=
  ⟨(highlightNumbers_spec (("no numerals here").toList)).1,
   (highlightNumbers_spec (("no numerals here").toList)).2.2.2 (by decide)⟩

theorem breakOnSep_none {sep x : List Char}
    (h : ∀ x2, x2 <:+ x → x2 ≠ [] → ¬ sep <+: x2) : breakOnSep sep x = none := by
  induction x with
  | nil => rfl
  | cons c r ih =>
    have hrec : breakOnSep sep r = none :=
      ih fun x2 hx2 hne => h x2 (hx2.trans (List.suffix_cons c r)) hne
    have hcond : ¬ (sep ≠ [] ∧ sep <+: (c :: r)) := by
      rintro ⟨hn, hpre⟩
      exact h (c :: r) (List.suffix_refl _) (by simp) hpre
    simp only [breakOnSep, if_neg hcond, hrec]

theorem jsSplitFuel_none {sep bd : List Char} {f : Nat}
    (h : breakOnSep sep bd = none) : jsSplitFuel sep f bd = [bd] := by
  cases f <;> simp [jsSplitFuel, h]

theorem breakOnSep_cons_neg {sep : List Char} {c : Char} {r : List Char}
    (h : ¬ (sep ≠ [] ∧ sep <+: (c :: r))) :
    breakOnSep sep (c :: r) =
      match breakOnSep sep r with
      | some (pre, post) => some (c :: pre, post)
      | none => none := by
  simp only [breakOnSep]
  rw [if_neg h]

theorem breakOnSep_advance {sep x t : List Char} (h : cleanBefore sep x t) :
    breakOnSep sep (x ++ t) =
      (breakOnSep sep t).map fun p => (x ++ p.1, p.2) := by
  induction x with
  | nil =>
    simp only [List.nil_append]
    rcases hb : breakOnSep sep t with _ | ⟨pre, post⟩ <;> simp
  | cons c r ih =>
    have hcond : ¬ (sep ≠ [] ∧ sep <+: (c :: (r ++ t))) := by
      rintro ⟨hn, hpre⟩
      exact h (c :: r) (List.suffix_refl _) (by simp) (by simpa using hpre)
    have hrec := ih fun x2 hx2 hne => h x2 (hx2.trans (List.suffix_cons c r)) hne
    have hstep : (c :: r) ++ t = c :: (r ++ t) := rfl
    rw [hstep, breakOnSep_cons_neg hcond, hrec]
    rcases hb : breakOnSep sep t with _ | ⟨pre, post⟩ <;> simp

theorem breakOnSep_sep {sep u : List Char} (h : sep ≠ []) :
    breakOnSep sep (sep ++ u) = some ([], u) := by
  cases sep with
  | nil => exact absurd rfl h
  | cons z zs =>
    have hcons : (z :: zs) ++ u = z :: (zs ++ u) := rfl
    rw [hcons]
    simp only [breakOnSep]
    rw [if_pos ⟨by simp, by rw [← hcons]; exact List.prefix_append _ _⟩]
    rw [← hcons, List.drop_left]

theorem suffix_append_split {x2 a b : List Char} (h : x2 <:+ a ++ b) :
    x2 <:+ b ∨ ∃ a2, a2 <:+ a ∧ a2 ≠ [] ∧ x2 = a2 ++ b := by
  obtain ⟨p, hp⟩ := h
  rcases List.append_eq_append_iff.mp hp with ⟨a2, ha1, ha2⟩ | ⟨c2, hc1, hc2⟩
  · rcases a2 with _ | ⟨y, a3⟩
    · left
      rw [ha2]
      simp
    · right
      exact ⟨y :: a3, ⟨p, ha1.symm⟩, by simp, ha2⟩
  · left
    exact ⟨c2, hc2.symm⟩

theorem suffix_of_three {a b c : Char} {l : List Char} (h : l <:+ [a, b, c]) :
    l = [] ∨ l = [c] ∨ l = [b, c] ∨ l = [a, b, c] := by
  obtain ⟨p, hp⟩ := h
  rcases p with _ | ⟨x1, _ | ⟨x2, _ | ⟨x3, p4⟩⟩⟩
  · right; right; right
    simpa using hp
  · injection hp with h1 h2
    right; right; left
    exact h2
  · injection hp with h1 h2
    injection h2 with h3 h4
    right; left
    exact h4
  · injection hp with h1 h2
    injection h2 with h3 h4
    injection h4 with h5 h6
    left
    exact (List.append_eq_nil.mp h6).2

theorem colonTitle_clean {tl bd : List Char} (htl : '*' ∉ tl) :
    cleanBefore boldClose tl (boldClose ++ bd) := by
  intro x2 hsuf hne hpre
  rcases x2 with _ | ⟨y, x3⟩
  · exact hne rfl
  · simp only [show boldClose = ':' :: '*' :: '*' :: [] from rfl,
      List.cons_append, List.nil_append, List.append_assoc] at hpre
    rw [List.cons_prefix_cons] at hpre
    obtain ⟨hy, hpre2⟩ := hpre
    rcases x3 with _ | ⟨z, x4⟩
    · simp only [List.nil_append] at hpre2
      rw [List.cons_prefix_cons] at hpre2
      exact absurd hpre2.1 (by decide)
    · simp only [List.cons_append] at hpre2
      rw [List.cons_prefix_cons] at hpre2
      exact htl (by rw [hpre2.1]; exact hsuf.subset (by simp))

theorem colonBody_clean {bd : List Char} (hbd : '*' ∉ bd) :
    ∀ x2, x2 <:+ bd → x2 ≠ [] → ¬ boldClose <+: x2 := by
  intro x2 hsuf hne hpre
  rcases x2 with _ | ⟨y, x3⟩
  · exact hne rfl
  · rw [show boldClose = ':' :: '*' :: '*' :: [] from rfl,
      List.cons_prefix_cons] at hpre
    obtain ⟨hy, hpre2⟩ := hpre
    rcases x3 with _ | ⟨z, x4⟩
    · have := hpre2.length_le
      simp at this
    · rw [List.cons_prefix_cons] at hpre2
      exact hbd (by rw [hpre2.1]; exact hsuf.subset (by simp))

theorem starSeg_clean {tl bd rest : List Char}
    (htl : '*' ∉ tl) (hbd : '*' ∉ bd) (hrest : bulletTail rest) :
    cleanBefore bulletMark (tl ++ boldClose ++ bd) rest := by
  intro x2 hsuf hne hpre
  rw [List.append_assoc] at hsuf
  have hbm : bulletMark = '*' :: ' ' :: '*' :: '*' :: [] := rfl
  have hbc : boldClose = ':' :: '*' :: '*' :: [] := rfl
  rcases suffix_append_split hsuf with hsuf1 | ⟨a2, ha2, hane, rfl⟩
  · rcases suffix_append_split hsuf1 with hsuf2 | ⟨a3, ha3, hane3, rfl⟩
    · -- x2 is a suffix of the body
      rcases x2 with _ | ⟨y, x3⟩
      · exact hne rfl
      · have hy : y ∈ bd := hsuf2.subset (by simp)
        simp only [hbm, List.cons_append] at hpre
        rw [List.cons_prefix_cons] at hpre
        exact hbd (by rw [hpre.1]; exact hy)
    · -- x2 = a3 ++ bd with a3 a nonempty suffix of ":**"
      rw [hbc] at ha3
      rcases suffix_of_three ha3 with rfl | rfl | rfl | rfl
      · exact hane3 rfl
      · -- a3 = ['*']
        simp only [hbm, List.cons_append, List.nil_append, List.append_assoc,
          List.cons_prefix_cons] at hpre
        have hpre2 := hpre.2
        rcases bd with _ | ⟨b0, bd2⟩
        · simp only [List.nil_append] at hpre2
          rcases hrest with rfl | ⟨u, rfl⟩
          · have := hpre2.length_le
            simp at this
          · rw [List.cons_prefix_cons] at hpre2
            exact absurd hpre2.1 (by decide)
        · simp only [List.cons_append, List.cons_prefix_cons] at hpre2
          have hpre3 := hpre2.2
          rcases bd2 with _ | ⟨b1, bd3⟩
          · simp only [List.nil_append] at hpre3
            rcases hrest with rfl | ⟨u, rfl⟩
            · have := hpre3.length_le
              simp at this
            · simp only [List.cons_prefix_cons] at hpre3
              exact absurd hpre3.2.1 (by decide)
          · simp only [List.cons_append, List.cons_prefix_cons] at hpre3
            exact hbd (by rw [hpre3.1]; simp)
      · -- a3 = ['*', '*']
        simp only [hbm, List.cons_append, List.nil_append, List.append_assoc,
          List.cons_prefix_cons] at hpre
        exact absurd hpre.2.1 (by decide)
      · -- a3 = [':', '*', '*']
        simp only [hbm, List.cons_append, List.nil_append, List.append_assoc,
          List.cons_prefix_cons] at hpre
        exact absurd hpre.1 (by decide)
  · -- x2 = a2 ++ (boldClose ++ bd) with a2 a nonempty suffix of the title
    rcases a2 with _ | ⟨y, a3⟩
    · exact hane rfl
    · have hy : y ∈ tl := ha2.subset (by simp)
      simp only [hbm, List.cons_append, List.append_assoc] at hpre
      rw [List.cons_prefix_cons] at hpre
      exact htl (by rw [hpre.1]; exact hy)

theorem split_colon {tl bd : List Char} (htl : '*' ∉ tl) (hbd : '*' ∉ bd) :
    jsSplit boldClose (tl ++ boldClose ++ bd) = [tl, bd] := by
  unfold jsSplit
  have hbreak : breakOnSep boldClose (tl ++ boldClose ++ bd) = some (tl, bd) := by
    rw [List.append_assoc, breakOnSep_advance (colonTitle_clean htl),
      breakOnSep_sep (by decide)]
    simp
  have hnone : breakOnSep boldClose bd = none :=
    breakOnSep_none (colonBody_clean hbd)
  simp only [jsSplitFuel, hbreak, jsSplitFuel_none hnone]

theorem parseItem_segment {tl bd : List Char} (htl : '*' ∉ tl) (hbd : '*' ∉ bd) :
    parseItem (tl ++ boldClose ++ bd) = some (expectedFinding (tl, bd)) := by
  unfold parseItem
  rw [split_colon htl hbd]
  rfl

theorem trim_ne_nil {s : List Char} {c : Char} (hc : c ∈ s)
    (hw : c.isWhitespace = false) : trimChars s ≠ [] := by
  intro h
  unfold trimChars at h
  rw [List.reverse_eq_nil_iff, List.dropWhile_eq_nil_iff] at h
  have hc1 : c ∈ s.dropWhile Char.isWhitespace := by
    have hsplit := List.takeWhile_append_dropWhile Char.isWhitespace s
    rcases List.mem_append.mp (by rw [hsplit]; exact hc) with h1 | h1
    · have h2 := List.mem_takeWhile_imp h1
      rw [hw] at h2
      exact absurd h2 (by simp)
    · exact h1
  have h3 := h c (List.mem_reverse.mpr hc1)
  rw [hw] at h3
  exact absurd h3 (by simp)

theorem bulletTail_renderSegments (segs : List (List Char × List Char)) :
    bulletTail (renderSegments segs) := by
  cases segs with
  | nil => exact Or.inl rfl
  | cons p rest =>
    right
    refine ⟨'*' :: '*' :: ((p.1 ++ boldClose ++ p.2) ++ renderSegments rest), ?_⟩
    simp only [renderSegments, List.map_cons, List.flatten_cons, renderSegment,
      show bulletMark = '*' :: ' ' :: '*' :: '*' :: [] from rfl]
    simp

theorem split_bullet (segs : List (List Char × List Char)) :
    ∀ (itm : List Char) (f : Nat),
    (itm ++ renderSegments segs).length < f →
    cleanBefore bulletMark itm (renderSegments segs) →
    (∀ p ∈ segs, wellFormedSeg p) →
    jsSplitFuel bulletMark f (itm ++ renderSegments segs) =
      itm :: segs.map fun p => p.1 ++ boldClose ++ p.2 := by
  induction segs with
  | nil =>
    intro itm f hf hclean _
    rcases f with _ | f2
    · omega
    · have hnone : breakOnSep bulletMark itm = none := by
        apply breakOnSep_none
        intro x2 hx2 hne
        have h2 := hclean x2 hx2 hne
        simpa [renderSegments] using h2
      simp only [renderSegments, List.map_nil, List.flatten_nil, List.append_nil]
      exact jsSplitFuel_none hnone
  | cons p rest ih =>
    intro itm f hf hclean hwf
    have hrend : renderSegments (p :: rest) =
        bulletMark ++ ((p.1 ++ boldClose ++ p.2) ++ renderSegments rest) := by
      simp [renderSegments, renderSegment, List.append_assoc]
    have hbreak : breakOnSep bulletMark (itm ++ renderSegments (p :: rest)) =
        some (itm, (p.1 ++ boldClose ++ p.2) ++ renderSegments rest) := by
      rw [breakOnSep_advance hclean, hrend, breakOnSep_sep (by decide)]
      simp
    rcases f with _ | f2
    · omega
    · rw [show itm ++ renderSegments (p :: rest) =
          itm ++ renderSegments (p :: rest) from rfl]
      simp only [jsSplitFuel, hbreak]
      have hwfp := hwf p (by simp)
      rw [show (p.1 ++ boldClose ++ p.2) ++ renderSegments rest =
          (p.1 ++ boldClose ++ p.2) ++ renderSegments rest from rfl]
      rw [ih (p.1 ++ boldClose ++ p.2) f2 ?_ ?_ ?_]
      · simp
      · have h4 : bulletMark.length = 4 := rfl
        rw [hrend] at hf
        simp only [List.length_append] at hf ⊢
        omega
      · exact starSeg_clean hwfp.1 hwfp.2 (bulletTail_renderSegments rest)
      · intro q hq
        exact hwf q (by simp [hq])

/-- C1 counterexample: the single well-formed segment `* **T:** b` (title
`T`, body ` b`) yields one entry, but its body is the trimmed `b`, not the
segment's body text ` b` verbatim. -/
theorem parseFindings_trims_body :
    parseFindings (renderSegments [(("T").toList, (" b").toList)]) =
      [⟨("T").toList, ("b").toList, "Activity", "text-cyan-400",
        "bg-cyan-500/10", "border-cyan-500/20"⟩] ∧
    (("b").toList : List Char) ≠ (" b").toList := by decide

theorem parseItems_assemble (segs : List (List Char × List Char))
    (hwf : ∀ p ∈ segs, wellFormedSeg p) :
    ((segs.map fun p => p.1 ++ boldClose ++ p.2).filter
      (fun item => !(trimChars item).isEmpty)).filterMap parseItem =
    segs.map expectedFinding := by
  induction segs with
  | nil => rfl
  | cons p rest ih =>
    have hp := hwf p (by simp)
    have hmem : ':' ∈ p.1 ++ boldClose ++ p.2 := by
      rw [List.append_assoc]
      refine List.mem_append.mpr (Or.inr ?_)
      refine List.mem_append.mpr (Or.inl ?_)
      decide
    have hkeep : (!(trimChars (p.1 ++ boldClose ++ p.2)).isEmpty) = true := by
      have h2 := trim_ne_nil hmem (by decide)
      simpa [List.isEmpty_iff] using h2
    rw [List.map_cons, List.filter_cons, hkeep]
    simp only [if_true]
    rw [List.filterMap_cons, parseItem_segment hp.1 hp.2]
    rw [ih fun q hq => hwf q (by simp [hq])]
    rfl

/-- C1 (amended): for an input that is a concatenation of well-formed
segments `* **<title>:**<body>` (well-formed: titles and bodies free of the
marker character `*`), `parseFindings` produces exactly one entry per
segment, whose title and body are the segment's title and body with
surrounding whitespace trimmed (and the keyword-derived style). -/
theorem parseFindings_segments (segs : List (List Char × List Char))
    (hwf : ∀ p ∈ segs, wellFormedSeg p) :
    parseFindings (renderSegments segs) = segs.map expectedFinding := by
  unfold parseFindings
  have hsplit : jsSplit bulletMark (renderSegments segs) =
      [] :: segs.map fun p => p.1 ++ boldClose ++ p.2 := by
    unfold jsSplit
    have h := split_bullet segs [] ((renderSegments segs).length + 1)
      (by simp) (by intro x2 hx2 hne; simp at hx2; exact absurd hx2 hne) hwf
    simpa using h
  rw [hsplit]
  have h0 : (!(trimChars ([] : List Char)).isEmpty) = false := rfl
  rw [List.filter_cons, h0]
  simp only [Bool.false_eq_true, if_false]
  exact parseItems_assemble segs hwf

theorem parseFindings_segments_witness :
    parseFindings (renderSegments
        [(("Volume Loss").toList, (" down 13%").toList)]) =
      [expectedFinding ((("Volume Loss").toList, (" down 13%").toList))] :=
  parseFindings_segments [(("Volume Loss").toList, (" down 13%").toList)]
    (by
      intro p hp
      simp only [List.mem_singleton] at hp
      subst hp
      exact ⟨by decide, by decide⟩)
